import Mathlib

/-!
Shallow embedding of the build-trigger and dispatch core of the habitat
builder service: the push-event change-set normalizer and per-project
validation/dispatch loop of `builder-api/src/http/handlers.rs`, the build
configuration model of `builder-core/src/build_config.rs`, and the
post-build publish gate of `builder-worker/src/runner/postprocessor.rs`.
External collaborators (GitHub content API, the routing broker, the depot)
are modelled as explicit inputs, mirroring the spec's interface contracts.
-/

namespace Habitat

/-! ### Byte order on strings, as Rust `Ord for String` compares them.
UTF-8 byte order coincides with code-point order, so the order is modelled
character-wise on `String.data`. -/

/-- Comparison of two characters by code point. -/
def charLe (a b : Char) : Bool := a.toNat ≤ b.toNat

/-- Lexicographic order on character lists: the model of Rust string
ordering used by `Vec::sort` in `GitHubWebhookPush::changed`. -/
def lexLe : List Char → List Char → Bool
  | [], _ => true
  | _ :: _, [] => false
  | a :: xs, b :: ys => if a = b then lexLe xs ys else charLe a b

/-- Rust string ordering as a relation on Lean strings. -/
def rustStrLe (a b : String) : Prop := lexLe a.data b.data = true

instance : DecidableRel rustStrLe := fun a b =>
  inferInstanceAs (Decidable (lexLe a.data b.data = true))

/-! ### Path model: Rust `std::path` on Unix, as used by
`Path::starts_with` in the trigger test and `Path::parent` in both the
push pipeline and `PostProcessor::new`. -/

/-- One component of a parsed path (`std::path::Component`; on Unix there
is no prefix component). -/
inductive Component where
  | rootDir
  | curDir
  | parentDir
  | normal (s : List Char)
deriving DecidableEq

/-- Split a character list at every separator character, dropping the
separators. -/
def splitSlash : List Char → List (List Char)
  | [] => [[]]
  | c :: rest =>
    let r := splitSlash rest
    if c = '/' then [] :: r
    else
      match r with
      | [] => [[c]]
      | seg :: segs => (c :: seg) :: segs

/-- Whether the path begins with the separator (an absolute path). -/
def isAbsolute : List Char → Bool
  | '/' :: _ => true
  | _ => false

/-- Whether the path is exactly `.` or begins with `./`: the one place
where Rust keeps a `CurDir` component. -/
def hasLeadingCurDir : List Char → Bool
  | ['.'] => true
  | '.' :: '/' :: _ => true
  | _ => false

/-- `Path::components` on Unix: a root marker for absolute paths, the
retained leading `CurDir` when the path starts with `./`, then every
non-empty segment, with interior `.` segments normalized away and `..`
mapped to `ParentDir`. -/
def pathComponents (p : List Char) : List Component :=
  let segs := (splitSlash p).filter fun s => !s.isEmpty && s != ['.']
  let body := segs.map fun s =>
    if s = ['.', '.'] then Component.parentDir else Component.normal s
  (if isAbsolute p then [Component.rootDir] else []) ++
    (if hasLeadingCurDir p then [Component.curDir] else []) ++ body

/-- `Path::starts_with`: component-wise prefix test (this is the trigger
match of `handle_github_event`, not glob expansion). -/
def pathStartsWith (p pat : List Char) : Bool :=
  decide (pathComponents pat <+: pathComponents p)

/-- `Path::parent`: the path without its final component; `none` for the
empty path and for a path that is only the root. -/
def pathParent (p : List Char) : Option (List Component) :=
  match pathComponents p with
  | [] => none
  | [Component.rootDir] => none
  | comps => some comps.dropLast

/-- `PathBuf::push` / `Path::join`: an absolute right operand replaces the
accumulated path. -/
def pathJoin (base rel : List Component) : List Component :=
  match rel with
  | Component.rootDir :: _ => rel
  | _ => base ++ rel

/-- `BUILD_CFG_FILENAME` from `builder-core/src/build_config.rs`. -/
def BUILD_CFG_FILENAME : List Char := "builder.toml".data

/-- The build-config location computed in `handle_github_event`: the
parent of the project's plan path joined with the config file name, with a
fallback to the repository root when the plan path has no parent. -/
def buildCfgPath (planPath : List Char) : List Component :=
  match pathParent planPath with
  | some parent => pathJoin parent (pathComponents BUILD_CFG_FILENAME)
  | none => pathJoin (pathComponents ['/']) (pathComponents BUILD_CFG_FILENAME)

/-- `PostProcessor::new`: the config path is
`workspace.src().join(parent(plan_path).join(BUILD_CFG_FILENAME))`, where
`parent()` is unwrapped; `none` models the panic of that `unwrap` when the
plan path has no parent. -/
def PostProcessor.configPath (src : List Component) (planPath : List Char) :
    Option (List Component) :=
  match pathParent planPath with
  | some parent => some (pathJoin src (pathJoin parent (pathComponents BUILD_CFG_FILENAME)))
  | none => none

/-! ### Change-set normalizer: `GitHubWebhookPush::changed`. -/

/-- The three path lists of one webhook commit (from
`GitHubWebhookCommit`; fields not read by `changed` — id, message, author
and so on — are omitted). -/
structure Commit where
  added : List String
  removed : List String
  modified : List String
deriving DecidableEq

/-- `Vec::dedup`: remove consecutive duplicates. -/
def dedupAdj : List String → List String
  | [] => []
  | [a] => [a]
  | a :: b :: rest => if a = b then dedupAdj (b :: rest) else a :: dedupAdj (b :: rest)

/-- `Vec::sort` on strings produces the sorted permutation of its input
under the byte order; `insertionSort` yields that same unique sorted
permutation. -/
def sortStrings (l : List String) : List String := List.insertionSort rustStrLe l

/-- `GitHubWebhookPush::changed`: concatenate every commit's added,
removed and modified path lists in order, sort, then drop the now-adjacent
duplicates. -/
def changed (commits : List Commit) : List String :=
  dedupAdj (sortStrings (commits.flatMap fun c => c.added ++ c.removed ++ c.modified))

/-! ### Build configuration model: `builder-core/src/build_config.rs`. -/

/-- Modelled from the spec: the platform default channel
(`builder-core/src/channel.rs` is not under src/); only its identity
matters to the claims. -/
def DEFAULT_CHANNEL : String := "unstable"

/-- `PublishCfg` from the builder-core generated types. -/
structure PublishCfg where
  channel : String
  enabled : Bool
deriving DecidableEq

/-- `BuildCfg` from the builder-core generated types. -/
structure BuildCfg where
  triggers : List String
  publish : PublishCfg
deriving DecidableEq

/-- `Default for PublishCfg`: default channel, publishing enabled. -/
def PublishCfg.default : PublishCfg := { channel := DEFAULT_CHANNEL, enabled := true }

/-- `Default for BuildCfg`: the single literal trigger pattern `./*` and
the default publish settings. -/
def BuildCfg.default : BuildCfg := { triggers := ["./*"], publish := PublishCfg.default }

/-! ### Plan manifest and project records. -/

/-- The identity-bearing part of a parsed plan manifest (hab_core's
package module is not under src/; the spec's PlanManifest carries origin
and name). -/
structure Plan where
  origin : String
  name : String
deriving DecidableEq

/-- `ProjectId for Plan` from `builder-vault/src/project.rs`: origin and
name joined by a slash. -/
def Plan.project_id (p : Plan) : String := p.origin ++ "/" ++ p.name

/-- The fields of a registered project read by the push pipeline. -/
structure Project where
  id : String
  plan_path : String
deriving DecidableEq

/-! ### Push-event handler: the per-project loop of
`handle_github_event` in `builder-api/src/http/handlers.rs`. -/

/-- Modelled from the spec: the reserved system identity used as owner of
push-triggered jobs (`GITHUB_PUSH_NOTIFY_ID` lives in protocol::jobsrv,
which is not under src/); its concrete value does not matter to the
claims. -/
def GITHUB_PUSH_NOTIFY_ID : Nat := 0

/-- The failure states written by the push pipeline (`ProjectState` in the
vault protocol). -/
inductive ProjectState where
  | originNameMismatch
  | badPlan
  | missingPlan
  | badConfig
deriving DecidableEq

/-- A message routed asynchronously by the push handler: a project
state-set or a job dispatch. -/
inductive Msg where
  | stateSet (projectId : String) (state : ProjectState)
  | jobDispatch (ownerId : Nat) (projectId : String)
deriving DecidableEq

def Msg.isStateSet : Msg → Bool
  | Msg.stateSet _ _ => true
  | _ => false

def Msg.isJobDispatch : Msg → Bool
  | Msg.jobDispatch _ _ => true
  | _ => false

/-- Joint outcome of fetching, base64-decoding and parsing the plan file
for one project. The GitHub content API and `Plan::from_bytes` are
external to src/, so the outcome is an input; the four constructors are
exactly the four match arms of the source. -/
inductive PlanFetch where
  | fetchErr
  | decodeErr
  | parseErr
  | parsed (plan : Plan)
deriving DecidableEq

/-- Joint outcome of fetching, decoding and parsing the build-config file
for one project, with the same four arms as the source. -/
inductive CfgFetch where
  | fetchErr
  | decodeErr
  | parseErr
  | parsed (cfg : BuildCfg)
deriving DecidableEq

/-- The external inputs consumed for one candidate project. -/
structure ProjectEnv where
  planFetch : PlanFetch
  cfgFetch : CfgFetch
deriving DecidableEq

/-- The trigger test and job dispatch closing the per-project loop: a job
for the project is dispatched exactly when some changed path starts with
some configured trigger pattern, compared as paths. -/
def evalTrigger (changedPaths : List String) (project : Project) (cfg : BuildCfg) : List Msg :=
  if changedPaths.any fun m => cfg.triggers.any fun f => pathStartsWith m.data f.data then
    [Msg.jobDispatch GITHUB_PUSH_NOTIFY_ID project.id]
  else
    []

/-- One iteration of the per-project loop of `handle_github_event`,
returning the messages routed for this project: a plan fetch error maps to
MissingPlan, a decode or parse error of the plan to BadPlan, an identity
mismatch to OriginNameMismatch, a decode or parse error of the build
config to BadConfig, an absent build config to the default config, and a
surviving project goes to trigger evaluation. -/
def processProject (changedPaths : List String) (project : Project) (env : ProjectEnv) :
    List Msg :=
  match env.planFetch with
  | PlanFetch.fetchErr => [Msg.stateSet project.id ProjectState.missingPlan]
  | PlanFetch.decodeErr => [Msg.stateSet project.id ProjectState.badPlan]
  | PlanFetch.parseErr => [Msg.stateSet project.id ProjectState.badPlan]
  | PlanFetch.parsed plan =>
    if plan.project_id ≠ project.id then
      [Msg.stateSet project.id ProjectState.originNameMismatch]
    else
      match env.cfgFetch with
      | CfgFetch.decodeErr => [Msg.stateSet project.id ProjectState.badConfig]
      | CfgFetch.parseErr => [Msg.stateSet project.id ProjectState.badConfig]
      | CfgFetch.fetchErr => evalTrigger changedPaths project BuildCfg.default
      | CfgFetch.parsed cfg => evalTrigger changedPaths project cfg

/-- The whole candidate loop. `deliver` is the outcome of
`Broker::route_async` for each routed message (hab_net is not under src/;
per the spec's Routing Client contract, dispatch may fail). Every routed
message goes through `route_async(..).unwrap()`, so a failed delivery
panics: `none` models that panic, ending the loop with the remaining
projects unevaluated. -/
def handlePush (changedPaths : List String) (deliver : Msg → Bool) :
    List (Project × ProjectEnv) → Option (List Msg)
  | [] => some []
  | (project, env) :: rest =>
    let msgs := processProject changedPaths project env
    if msgs.all deliver then
      (handlePush changedPaths deliver rest).map fun ms => msgs ++ ms
    else
      none

/-! ### Post-build processor: `builder-worker/src/runner/postprocessor.rs`. -/

/-- The error variants of `ConfigError` in `core/src/config.rs`; only the
IO constructor is treated specially by `PostProcessor::run`. -/
inductive ConfigError where
  | badArray
  | badIpAddr
  | badSocketAddr
  | badString
  | decodeError
  | io
  | invalidTargetString
  | parseError
deriving DecidableEq

/-- Observable outcome of one `PostProcessor::run`: the boolean the caller
receives, and whether the depot's `x_put_package` was invoked. -/
structure RunResult where
  success : Bool
  depotInvoked : Bool
deriving DecidableEq

/-- `PostProcessor::publish`: skip when publishing is disabled, otherwise
invoke the depot and report its outcome. Returns the boolean result paired
with whether the depot was invoked; `putOk` is the depot call's outcome
(the depot client is external). -/
def PostProcessor.publish (cfg : PublishCfg) (putOk : Bool) : Bool × Bool :=
  if !cfg.enabled then (false, false)
  else if putOk then (true, true)
  else (false, true)

/-- `PostProcessor::run`: the `BuildCfg::from_file` result is an input
(the workspace filesystem is external). An IO error — the missing-file
case — selects the default config and proceeds; any other error returns
failure without touching the depot; a parsed config proceeds to the
publish step. -/
def PostProcessor.run (cfgFile : Except ConfigError BuildCfg) (putOk : Bool) : RunResult :=
  match cfgFile with
  | Except.error ConfigError.io =>
    let r := PostProcessor.publish BuildCfg.default.publish putOk
    { success := r.1, depotInvoked := r.2 }
  | Except.error _ => { success := false, depotInvoked := false }
  | Except.ok cfg =>
    let r := PostProcessor.publish cfg.publish putOk
    { success := r.1, depotInvoked := r.2 }

/-! ### Order properties of the string comparison. -/

theorem char_toNat_inj {a b : Char} (h : a.toNat = b.toNat) : a = b :=
  Char.ext (UInt32.toNat.inj h)

theorem lexLe_total : ∀ l₁ l₂ : List Char, lexLe l₁ l₂ = true ∨ lexLe l₂ l₁ = true
  | [], _ => Or.inl rfl
  | _ :: _, [] => Or.inr rfl
  | a :: xs, b :: ys => by
    by_cases h : a = b
    · subst h
      simpa [lexLe] using lexLe_total xs ys
    · have h' : ¬b = a := fun hh => h hh.symm
      simp only [lexLe, if_neg h, if_neg h', charLe, decide_eq_true_eq]
      omega

theorem lexLe_trans : ∀ l₁ l₂ l₃ : List Char,
    lexLe l₁ l₂ = true → lexLe l₂ l₃ = true → lexLe l₁ l₃ = true
  | [], _, _ => by simp [lexLe]
  | _ :: _, [], _ => by simp [lexLe]
  | _ :: _, _ :: _, [] => by simp [lexLe]
  | a :: xs, b :: ys, c :: zs => by
    intro h1 h2
    by_cases hab : a = b <;> by_cases hbc : b = c
    · subst hab; subst hbc
      simp only [lexLe, if_pos rfl] at h1 h2 ⊢
      exact lexLe_trans xs ys zs h1 h2
    · subst hab
      simp only [lexLe, if_pos rfl, if_neg hbc] at h1 h2 ⊢
      exact h2
    · subst hbc
      simp only [lexLe, if_neg hab] at h1 ⊢
      exact h1
    · simp only [lexLe, if_neg hab, if_neg hbc, charLe, decide_eq_true_eq] at h1 h2
      have hlt : a.toNat < b.toNat :=
        Nat.lt_of_le_of_ne h1 fun hh => hab (char_toNat_inj hh)
      have hac : a.toNat < c.toNat := Nat.lt_of_lt_of_le hlt h2
      have hne : ¬a = c := fun hh => by subst hh; omega
      simp only [lexLe, if_neg hne, charLe, decide_eq_true_eq]
      omega

theorem lexLe_antisymm : ∀ l₁ l₂ : List Char,
    lexLe l₁ l₂ = true → lexLe l₂ l₁ = true → l₁ = l₂
  | [], [] => by simp
  | [], _ :: _ => by simp [lexLe]
  | _ :: _, [] => by simp [lexLe]
  | a :: xs, b :: ys => by
    intro h1 h2
    by_cases h : a = b
    · subst h
      simp only [lexLe, if_pos rfl] at h1 h2
      rw [lexLe_antisymm xs ys h1 h2]
    · have h' : ¬b = a := fun hh => h hh.symm
      simp only [lexLe, if_neg h, if_neg h', charLe, decide_eq_true_eq] at h1 h2
      exact absurd (char_toNat_inj (Nat.le_antisymm h1 h2)) h

instance : IsTotal String rustStrLe :=
  ⟨fun a b => lexLe_total a.data b.data⟩

instance : IsTrans String rustStrLe :=
  ⟨fun a b c => lexLe_trans a.data b.data c.data⟩

instance : IsAntisymm String rustStrLe :=
  ⟨fun a b h1 h2 => by
    have h := lexLe_antisymm a.data b.data h1 h2
    cases a; cases b
    exact congrArg String.mk h⟩

/-! ### Behaviour of the adjacent-duplicate removal. -/

theorem dedupAdj_sublist : ∀ l : List String, List.Sublist (dedupAdj l) l
  | [] => by simp [dedupAdj]
  | [a] => by simp [dedupAdj]
  | a :: b :: rest => by
    have ih := dedupAdj_sublist (b :: rest)
    unfold dedupAdj
    split
    · exact ih.cons a
    · exact ih.cons₂ a

theorem mem_dedupAdj : ∀ (l : List String) (s : String), s ∈ dedupAdj l ↔ s ∈ l
  | [] => by simp [dedupAdj]
  | [a] => by simp [dedupAdj]
  | a :: b :: rest => by
    intro s
    have ih := mem_dedupAdj (b :: rest) s
    unfold dedupAdj
    split
    · rename_i h
      subst h
      rw [ih]
      simp only [List.mem_cons]
      tauto
    · simp only [List.mem_cons] at ih ⊢
      rw [ih]

theorem nodup_dedupAdj : ∀ l : List String, l.Pairwise rustStrLe → (dedupAdj l).Nodup
  | [] => by simp [dedupAdj]
  | [a] => by simp [dedupAdj]
  | a :: b :: rest => by
    intro hp
    have hpt : (b :: rest).Pairwise rustStrLe := hp.of_cons
    have ih := nodup_dedupAdj (b :: rest) hpt
    unfold dedupAdj
    split
    · exact ih
    · rename_i h
      refine List.nodup_cons.mpr ⟨fun hmem => ?_, ih⟩
      have hmem' : a ∈ b :: rest := (mem_dedupAdj (b :: rest) a).mp hmem
      rcases List.mem_cons.mp hmem' with rfl | hmem''
      · exact h rfl
      · have hab : rustStrLe a b := (List.pairwise_cons.mp hp).1 b (by simp)
        have haa : rustStrLe a a := (List.pairwise_cons.mp hp).1 a (by simp [hmem''])
        have hba : rustStrLe b a := (List.pairwise_cons.mp hpt).1 a hmem''
        exact h (antisymm hab hba)

theorem pairwise_dedupAdj (l : List String) (hp : l.Pairwise rustStrLe) :
    (dedupAdj l).Pairwise rustStrLe :=
  hp.sublist (dedupAdj_sublist l)

/-! ### The trigger evaluation characterized. -/

theorem evalTrigger_spec (paths : List String) (project : Project) (cfg : BuildCfg) :
    (evalTrigger paths project cfg = [Msg.jobDispatch GITHUB_PUSH_NOTIFY_ID project.id] ↔
      ∃ m ∈ paths, ∃ f ∈ cfg.triggers, pathComponents f.data <+: pathComponents m.data) ∧
    ((¬∃ m ∈ paths, ∃ f ∈ cfg.triggers, pathComponents f.data <+: pathComponents m.data) →
      evalTrigger paths project cfg = []) := by
  have hcond : ((paths.any fun m => cfg.triggers.any fun f =>
      pathStartsWith m.data f.data) = true) ↔
      ∃ m ∈ paths, ∃ f ∈ cfg.triggers, pathComponents f.data <+: pathComponents m.data := by
    simp [List.any_eq_true, pathStartsWith]
  unfold evalTrigger
  by_cases h : ∃ m ∈ paths, ∃ f ∈ cfg.triggers, pathComponents f.data <+: pathComponents m.data
  · rw [if_pos (hcond.mpr h)]
    simp [h]
  · rw [if_neg (fun hb => h (hcond.mp hb))]
    simp [h]

/-- The one-step equation of the candidate loop on a cons cell. -/
theorem handlePush_cons (paths : List String) (deliver : Msg → Bool) (project : Project)
    (env : ProjectEnv) (rest : List (Project × ProjectEnv)) :
    handlePush paths deliver ((project, env) :: rest)
      = if (processProject paths project env).all deliver then
          (handlePush paths deliver rest).map
            (fun ms => processProject paths project env ++ ms)
        else none := rfl

/-- One loop iteration routes nothing, a single state transition for the
project, or a single job dispatch owned by the push-trigger identity. -/
theorem processProject_shape (paths : List String) (project : Project) (env : ProjectEnv) :
    processProject paths project env = [] ∨
    (∃ st, processProject paths project env = [Msg.stateSet project.id st]) ∨
    processProject paths project env = [Msg.jobDispatch GITHUB_PUSH_NOTIFY_ID project.id] := by
  obtain ⟨pf, cf⟩ := env
  cases pf with
  | fetchErr => exact Or.inr (Or.inl ⟨_, rfl⟩)
  | decodeErr => exact Or.inr (Or.inl ⟨_, rfl⟩)
  | parseErr => exact Or.inr (Or.inl ⟨_, rfl⟩)
  | parsed plan =>
    by_cases hid : plan.project_id = project.id
    · cases cf with
      | decodeErr =>
        refine Or.inr (Or.inl ⟨ProjectState.badConfig, ?_⟩)
        simp [processProject, hid]
      | parseErr =>
        refine Or.inr (Or.inl ⟨ProjectState.badConfig, ?_⟩)
        simp [processProject, hid]
      | fetchErr =>
        have hp : processProject paths project ⟨PlanFetch.parsed plan, CfgFetch.fetchErr⟩
            = evalTrigger paths project BuildCfg.default := by
          simp [processProject, hid]
        rw [hp]
        unfold evalTrigger
        split
        · exact Or.inr (Or.inr rfl)
        · exact Or.inl rfl
      | parsed cfg =>
        have hp : processProject paths project ⟨PlanFetch.parsed plan, CfgFetch.parsed cfg⟩
            = evalTrigger paths project cfg := by
          simp [processProject, hid]
        rw [hp]
        unfold evalTrigger
        split
        · exact Or.inr (Or.inr rfl)
        · exact Or.inl rfl
    · refine Or.inr (Or.inl ⟨ProjectState.originNameMismatch, ?_⟩)
      simp [processProject, hid]

/-! ### The claims. -/

/-- Claim C1: for every build config and every push event, a trigger fires
for a project if and only if at least one changed path, interpreted as a
filesystem path, has some trigger pattern (also interpreted as a path) as
a prefix of its components; when no changed path matches any trigger
pattern, no job is dispatched for that project and no state transition is
written. -/
theorem c1_trigger_fires_iff_prefix_match (commits : List Commit) (project : Project)
    (plan : Plan) (cfgf : CfgFetch) (cfg : BuildCfg)
    (hid : plan.project_id = project.id)
    (hcfg : cfgf = CfgFetch.parsed cfg ∨ (cfgf = CfgFetch.fetchErr ∧ cfg = BuildCfg.default)) :
    (processProject (changed commits) project ⟨PlanFetch.parsed plan, cfgf⟩ =
        [Msg.jobDispatch GITHUB_PUSH_NOTIFY_ID project.id] ↔
      ∃ m ∈ changed commits, ∃ f ∈ cfg.triggers,
        pathComponents f.data <+: pathComponents m.data) ∧
    ((¬∃ m ∈ changed commits, ∃ f ∈ cfg.triggers,
        pathComponents f.data <+: pathComponents m.data) →
      processProject (changed commits) project ⟨PlanFetch.parsed plan, cfgf⟩ = []) := by
  have hproc : processProject (changed commits) project ⟨PlanFetch.parsed plan, cfgf⟩
      = evalTrigger (changed commits) project cfg := by
    rcases hcfg with rfl | ⟨rfl, rfl⟩ <;> simp [processProject, hid]
  rw [hproc]
  exact evalTrigger_spec _ _ _

/-- Claim C1 witness: a config with trigger pattern docs/ and a push whose
only changed path is src/main.rs dispatches no job and writes no state
transition. -/
theorem c1_trigger_fires_iff_prefix_match_witness :
    processProject (changed [Commit.mk ["src/main.rs"] [] []]) (Project.mk "o/n" "plan.sh")
      (ProjectEnv.mk (PlanFetch.parsed (Plan.mk "o" "n"))
        (CfgFetch.parsed (BuildCfg.mk ["docs/"] PublishCfg.default))) = [] :=
  (c1_trigger_fires_iff_prefix_match [Commit.mk ["src/main.rs"] [] []]
    (Project.mk "o/n" "plan.sh") (Plan.mk "o" "n")
    (CfgFetch.parsed (BuildCfg.mk ["docs/"] PublishCfg.default))
    (BuildCfg.mk ["docs/"] PublishCfg.default)
    (by decide) (Or.inl rfl)).2 (by decide)

/-- Claim C2 counterexample: a manifest content decode failure produces a
BadPlan state transition, not the MissingPlan transition asserted by the
claim for the decode case. -/
theorem c2_decode_failure_counterexample :
    processProject ["src/main.rs"] (Project.mk "o/n" "plan.sh")
        (ProjectEnv.mk PlanFetch.decodeErr CfgFetch.fetchErr)
      = [Msg.stateSet "o/n" ProjectState.badPlan] ∧
    processProject ["src/main.rs"] (Project.mk "o/n" "plan.sh")
        (ProjectEnv.mk PlanFetch.decodeErr CfgFetch.fetchErr)
      ≠ [Msg.stateSet "o/n" ProjectState.missingPlan] := by decide

/-- Claim C2 as amended: a network or not-found failure fetching the
manifest emits exactly one MissingPlan transition for the project, a
content decode failure instead emits exactly one BadPlan transition; in
both cases no job is dispatched for the project and, provided the
transition is delivered, processing continues with the remaining
projects. -/
theorem c2_manifest_fetch_failure (paths : List String) (project : Project)
    (cfgf cfgf' : CfgFetch) (rest : List (Project × ProjectEnv)) (deliver : Msg → Bool)
    (hmp : deliver (Msg.stateSet project.id ProjectState.missingPlan) = true)
    (hbp : deliver (Msg.stateSet project.id ProjectState.badPlan) = true) :
    processProject paths project ⟨PlanFetch.fetchErr, cfgf⟩
      = [Msg.stateSet project.id ProjectState.missingPlan] ∧
    processProject paths project ⟨PlanFetch.decodeErr, cfgf'⟩
      = [Msg.stateSet project.id ProjectState.badPlan] ∧
    handlePush paths deliver ((project, ⟨PlanFetch.fetchErr, cfgf⟩) :: rest)
      = (handlePush paths deliver rest).map
          (fun ms => Msg.stateSet project.id ProjectState.missingPlan :: ms) ∧
    handlePush paths deliver ((project, ⟨PlanFetch.decodeErr, cfgf'⟩) :: rest)
      = (handlePush paths deliver rest).map
          (fun ms => Msg.stateSet project.id ProjectState.badPlan :: ms) := by
  refine ⟨rfl, rfl, ?_, ?_⟩
  · rw [handlePush_cons]
    have hpp : processProject paths project ⟨PlanFetch.fetchErr, cfgf⟩
        = [Msg.stateSet project.id ProjectState.missingPlan] := rfl
    rw [hpp]
    simp [hmp]
  · rw [handlePush_cons]
    have hpp : processProject paths project ⟨PlanFetch.decodeErr, cfgf'⟩
        = [Msg.stateSet project.id ProjectState.badPlan] := rfl
    rw [hpp]
    simp [hbp]

/-- Claim C2 witness: a single project whose manifest fetch fails, with
every delivery succeeding, yields exactly the MissingPlan transition. -/
theorem c2_manifest_fetch_failure_witness :
    handlePush ["x"] (fun _ => true)
      [(Project.mk "o/n" "p", ProjectEnv.mk PlanFetch.fetchErr CfgFetch.fetchErr)]
      = some [Msg.stateSet "o/n" ProjectState.missingPlan] := by
  have h := c2_manifest_fetch_failure ["x"] (Project.mk "o/n" "p") CfgFetch.fetchErr
    CfgFetch.fetchErr [] (fun _ => true) rfl rfl
  rw [h.2.2.1]
  rfl

/-- Claim C3 evaluation at the failing input: with no build-config file
the default config applies, whose only trigger is the literal pattern ./*;
that pattern is not a component prefix of components/builder-api/x, so the
handler dispatches no job for the project (the claim expects a job owned
by the system push-trigger identity). -/
theorem c3_default_trigger_dispatches_nothing :
    processProject ["components/builder-api/x"]
        (Project.mk "core/builder-api" "components/builder-api/plan.sh")
        (ProjectEnv.mk (PlanFetch.parsed (Plan.mk "core" "builder-api")) CfgFetch.fetchErr)
      = [] ∧
    BuildCfg.default.triggers = ["./*"] ∧
    pathStartsWith "components/builder-api/x".data "./*".data = false := by decide

/-- Claim C4: changed paths are the sorted duplicate-free union of every
commit's added, removed and modified lists, and the result is invariant
under permutation of the commits. -/
theorem c4_changed_paths_sorted_dedup_union (commits commits' : List Commit)
    (h : commits.Perm commits') :
    List.Sorted rustStrLe (changed commits) ∧
    (changed commits).Nodup ∧
    (∀ s : String, s ∈ changed commits ↔
      ∃ c ∈ commits, s ∈ c.added ∨ s ∈ c.removed ∨ s ∈ c.modified) ∧
    changed commits = changed commits' := by
  have hsorted : ∀ cs : List Commit,
      List.Sorted rustStrLe
        (sortStrings (cs.flatMap fun c => c.added ++ c.removed ++ c.modified)) :=
    fun cs => List.sorted_insertionSort rustStrLe _
  have hperm : ∀ cs : List Commit,
      (sortStrings (cs.flatMap fun c => c.added ++ c.removed ++ c.modified)).Perm
        (cs.flatMap fun c => c.added ++ c.removed ++ c.modified) :=
    fun cs => List.perm_insertionSort rustStrLe _
  refine ⟨pairwise_dedupAdj _ (hsorted commits), nodup_dedupAdj _ (hsorted commits), ?_, ?_⟩
  · intro s
    rw [changed, mem_dedupAdj, (hperm commits).mem_iff]
    simp [List.mem_flatMap, List.mem_append, or_assoc]
  · have heq : sortStrings (commits.flatMap fun c => c.added ++ c.removed ++ c.modified)
        = sortStrings (commits'.flatMap fun c => c.added ++ c.removed ++ c.modified) := by
      refine List.eq_of_perm_of_sorted ?_ (hsorted commits) (hsorted commits')
      exact (hperm commits).trans ((h.flatMap_right _).trans (hperm commits').symm)
    rw [changed, changed, heq]

/-- Claim C4 witness: on a concrete pair of commit lists that are
permutations of each other, the changed sets coincide and are
duplicate-free. -/
theorem c4_changed_paths_sorted_dedup_union_witness :
    changed [Commit.mk ["b", "a"] ["a"] ["c"], Commit.mk ["a"] [] ["b"]]
      = changed [Commit.mk ["a"] [] ["b"], Commit.mk ["b", "a"] ["a"] ["c"]] ∧
    (changed [Commit.mk ["b", "a"] ["a"] ["c"], Commit.mk ["a"] [] ["b"]]).Nodup := by
  have h := c4_changed_paths_sorted_dedup_union
    [Commit.mk ["b", "a"] ["a"] ["c"], Commit.mk ["a"] [] ["b"]]
    [Commit.mk ["a"] [] ["b"], Commit.mk ["b", "a"] ["a"] ["c"]]
    (List.Perm.swap (Commit.mk ["a"] [] ["b"]) (Commit.mk ["b", "a"] ["a"] ["c"]) [])
  exact ⟨h.2.2.2, h.2.1⟩

/-- Claim C5: when the fetched manifest parses but its derived identity
differs from the project's registered identity, the handler emits exactly
one OriginNameMismatch transition for the project and dispatches no
job. -/
theorem c5_origin_name_mismatch (paths : List String) (project : Project) (plan : Plan)
    (cfgf : CfgFetch) (h : plan.project_id ≠ project.id) :
    processProject paths project ⟨PlanFetch.parsed plan, cfgf⟩
      = [Msg.stateSet project.id ProjectState.originNameMismatch] := by
  simp [processProject, h]

/-- Claim C5 witness: a manifest deriving identity o/m against a project
registered as o/n yields exactly the OriginNameMismatch transition. -/
theorem c5_origin_name_mismatch_witness :
    processProject ["x"] (Project.mk "o/n" "p")
      (ProjectEnv.mk (PlanFetch.parsed (Plan.mk "o" "m")) CfgFetch.fetchErr)
      = [Msg.stateSet "o/n" ProjectState.originNameMismatch] :=
  c5_origin_name_mismatch ["x"] (Project.mk "o/n" "p") (Plan.mk "o" "m")
    CfgFetch.fetchErr (by decide)

/-- Claim C6 evaluation at the failing input: when delivery of the first
project's MissingPlan transition fails, the unwrap on the routing call
panics and the whole batch aborts (result none), so the second project is
never evaluated — although with every delivery succeeding the handler
would have processed both projects. -/
theorem c6_delivery_failure_aborts_batch :
    handlePush ["x"] (fun m => m ≠ Msg.stateSet "o/a" ProjectState.missingPlan)
        [(Project.mk "o/a" "p", ProjectEnv.mk PlanFetch.fetchErr CfgFetch.fetchErr),
         (Project.mk "o/b" "p", ProjectEnv.mk PlanFetch.fetchErr CfgFetch.fetchErr)]
      = none ∧
    handlePush ["x"] (fun _ => true)
        [(Project.mk "o/a" "p", ProjectEnv.mk PlanFetch.fetchErr CfgFetch.fetchErr),
         (Project.mk "o/b" "p", ProjectEnv.mk PlanFetch.fetchErr CfgFetch.fetchErr)]
      = some [Msg.stateSet "o/a" ProjectState.missingPlan,
              Msg.stateSet "o/b" ProjectState.missingPlan] := by decide

/-- Claim C7: a malformed build-config file (any non-IO error from
loading) makes run return failure without invoking the depot, whereas an
absent file (an IO error) selects the default config and proceeds to the
publish step, which with the default config invokes the depot. -/
theorem c7_malformed_aborts_missing_defaults (e : ConfigError) (putOk : Bool)
    (h : e ≠ ConfigError.io) :
    PostProcessor.run (Except.error e) putOk = RunResult.mk false false ∧
    PostProcessor.run (Except.error ConfigError.io) putOk
      = PostProcessor.run (Except.ok BuildCfg.default) putOk ∧
    (PostProcessor.run (Except.error ConfigError.io) putOk).depotInvoked = true := by
  refine ⟨?_, by rfl, by cases putOk <;> rfl⟩
  cases e <;> first | rfl | exact absurd rfl h

/-- Claim C7 witness: a parse error aborts without touching the depot. -/
theorem c7_malformed_aborts_missing_defaults_witness :
    PostProcessor.run (Except.error ConfigError.parseError) true = RunResult.mk false false :=
  (c7_malformed_aborts_missing_defaults ConfigError.parseError true (by decide)).1

/-- Claim C8: when the loaded build config has publishing disabled, the
depot is never invoked, whatever the depot call would have returned. -/
theorem c8_publish_disabled_never_puts (cfg : BuildCfg) (putOk : Bool)
    (h : cfg.publish.enabled = false) :
    (PostProcessor.run (Except.ok cfg) putOk).depotInvoked = false := by
  simp [PostProcessor.run, PostProcessor.publish, h]

/-- Claim C8 witness: a config with publishing disabled never invokes the
depot even when the depot call would succeed. -/
theorem c8_publish_disabled_never_puts_witness :
    (PostProcessor.run (Except.ok (BuildCfg.mk ["./*"] (PublishCfg.mk "stable" false)))
        true).depotInvoked = false :=
  c8_publish_disabled_never_puts (BuildCfg.mk ["./*"] (PublishCfg.mk "stable" false))
    true (by decide)

/-- Claim C9: one iteration of the per-project loop routes at most one
message, and never both a state transition and a job dispatch. -/
theorem c9_per_project_at_most_one_message (paths : List String) (project : Project)
    (env : ProjectEnv) :
    (processProject paths project env).length ≤ 1 ∧
    ¬((processProject paths project env).any Msg.isStateSet = true ∧
      (processProject paths project env).any Msg.isJobDispatch = true) := by
  rcases processProject_shape paths project env with h | ⟨st, h⟩ | h <;>
    rw [h] <;> simp [Msg.isStateSet, Msg.isJobDispatch]

/-- Claim C10: PostProcessor construction unwraps the plan path's parent
and so panics when the plan path is the bare root, while the push pipeline
falls back to the repository root for the same plan path. -/
theorem c10_postprocessor_parent_unwrap (src : List Component) :
    PostProcessor.configPath src "/".data = none ∧
    buildCfgPath "/".data = [Component.rootDir, Component.normal "builder.toml".data] ∧
    pathParent "/".data = none := by
  have h : pathParent "/".data = none := by decide
  refine ⟨?_, by decide, h⟩
  unfold PostProcessor.configPath
  rw [h]

end Habitat
